import Mathlib

/-!
Verification of the VideoTextCut core against its specification.

The development shallowly embeds the Python sources:
  * `models.py` — `WordTiming`, `TranscriptSegment`, `TranscriptData` with
    `get_active_word_ranges`, `update_from_text`, `get_active_time_ranges`;
  * `filler_detector.py` — `_is_filler_segment` / `detect_filler_words` /
    `get_filler_statistics` / `detect_empty_spots`;
  * `progress_tracker.py` — `ProgressTracker` state with `start_operation`,
    `update_progress`, `complete_operation`, `fail_operation`,
    `cancel_operation`.

Python floats are embedded as rationals (`ℚ`); all arithmetic in the
embedded code is exact, so this is faithful to the algorithmic content.
Python strings are embedded as Lean strings, with the handful of `str`
methods the code uses re-implemented structurally over `List Char`
(`String.data`) so that concrete runs reduce inside the kernel.
Wall-clock reads (`time.time()`) are passed in explicitly as a `now : ℚ`
argument.
-/

namespace VideoTextCut

/-! ### Python string primitives -/

/-- Whitespace test used by `str.strip` / `str.split`. -/
def wsChar (c : Char) : Bool := c.isWhitespace

/-- Strip whitespace from both ends of a character list. -/
def stripL (l : List Char) : List Char :=
  ((l.dropWhile wsChar).reverse.dropWhile wsChar).reverse

/-- Models Python `str.strip()`. -/
def pyStrip (s : String) : String := ⟨stripL s.data⟩

/-- Models Python `str.lower()` (per-character lowercasing). -/
def pyLower (s : String) : String := ⟨s.data.map Char.toLower⟩

/-- Models Python substring containment `needle in hay`. -/
def pyIn (needle hay : String) : Prop := needle.data <:+: hay.data

instance (n h : String) : Decidable (pyIn n h) :=
  inferInstanceAs (Decidable (n.data <:+: h.data))

/-- Models Python `str.split(sep)` for a single-character separator. -/
def splitChar (sep : Char) : List Char → List (List Char)
  | [] => [[]]
  | c :: rest =>
    if c = sep then [] :: splitChar sep rest
    else
      match splitChar sep rest with
      | [] => [[c]]
      | h :: t => (c :: h) :: t

/-- Helper for whitespace splitting: `acc` is the current word, reversed. -/
def splitWsAux : List Char → List Char → List (List Char)
  | acc, [] => if acc = [] then [] else [acc.reverse]
  | acc, c :: rest =>
    if wsChar c then
      if acc = [] then splitWsAux [] rest else acc.reverse :: splitWsAux [] rest
    else splitWsAux (c :: acc) rest

/-- Models Python `str.split()` with no argument: split on whitespace runs,
dropping empty pieces. -/
def pySplitWs (s : String) : List String :=
  (splitWsAux [] s.data).map (fun l => ⟨l⟩)

/-- Characters before the first occurrence of `sep` (the whole list when
`sep` does not occur).  Models Python `s.split(sep)[0]` for non-empty `sep`. -/
def takeBefore (sep : List Char) : List Char → List Char
  | [] => []
  | c :: rest =>
    if List.isPrefixOf sep (c :: rest) then [] else c :: takeBefore sep rest

/-- Join character lists with a separator. -/
def joinWith (sep : List Char) : List (List Char) → List Char
  | [] => []
  | [l] => l
  | l :: ls => l ++ sep ++ joinWith sep ls

/-- Models Python `' '.join(parts)`. -/
def pyJoinSpace (parts : List String) : String :=
  ⟨joinWith [' '] (parts.map (fun s => s.data))⟩

/-- Models the line preprocessing of `TranscriptData.update_from_text`:
`[line.strip() for line in edited_text.split('\n') if line.strip()]`. -/
def pyLines (edited_text : String) : List String :=
  ((splitChar '\n' edited_text.data).map (fun l => pyStrip ⟨l⟩)).filter
    (fun s => s ≠ "")

/-- Digits of a decimal numeral to a natural number. -/
def digitsToNat (l : List Char) : ℕ :=
  l.foldl (fun acc c => acc * 10 + (c.toNat - '0'.toNat)) 0

/-- Character-level parse of an optionally signed decimal literal:
returns (negative?, integer digits value, fraction digits value, number of
fraction digits). -/
def pyFloatParse (l : List Char) : Option (Bool × ℕ × ℕ × ℕ) :=
  let core := fun (neg : Bool) (rest : List Char) =>
    match splitChar '.' rest with
    | [ip] =>
      if ip ≠ [] ∧ ip.all Char.isDigit then some (neg, digitsToNat ip, 0, 0)
      else none
    | [ip, fp] =>
      if (ip ≠ [] ∨ fp ≠ []) ∧ ip.all Char.isDigit ∧ fp.all Char.isDigit then
        some (neg, digitsToNat ip, digitsToNat fp, fp.length)
      else none
    | _ => none
  match l with
  | '-' :: rest => core true rest
  | '+' :: rest => core false rest
  | rest => core false rest

/-- Models Python `float(s)` on the optionally signed decimal literals this
application produces (timestamps formatted with two decimals); exponent and
special forms raise `ValueError`, i.e. return `none`. -/
def pyFloat (s : String) : Option ℚ :=
  (pyFloatParse (stripL s.data)).map (fun x =>
    match x with
    | (neg, ip, fp, k) =>
      (if neg then -1 else 1) * ((ip : ℚ) + (fp : ℚ) / (10 : ℚ) ^ k))

/-! ### models.py — data model -/

/-- Timing information for a single word (`models.WordTiming`). -/
structure WordTiming where
  word : String
  start_time : ℚ
  end_time : ℚ
  confidence : ℚ := 0
deriving DecidableEq

/-- A transcript segment (`models.TranscriptSegment`). -/
structure TranscriptSegment where
  id : ℤ
  start_time : ℚ
  end_time : ℚ
  text : String
  is_filler : Bool := false
  is_deleted : Bool := false
  confidence : ℚ := 0
  word_timings : List WordTiming := []
deriving DecidableEq

/-- Default segment used with `List.getD`. -/
def dseg : TranscriptSegment := ⟨0, 0, 0, "", false, false, 0, []⟩

/-- Default word timing used with `List.getD`. -/
def dwt : WordTiming := ⟨"", 0, 0, 0⟩

/-- Embeds `TranscriptSegment.duration`. -/
def TranscriptSegment.duration (s : TranscriptSegment) : ℚ :=
  s.end_time - s.start_time

/-- Models Python `list.index(x, start)` (as an `Option` instead of
`ValueError`): index of the first occurrence of `x` at position `≥ start`. -/
def indexFrom (l : List String) (x : String) (start : ℕ) : Option ℕ :=
  ((l.drop start).findIdx? (fun w => w == x)).map (fun i => i + start)

/-- The inner while loop of `get_active_word_ranges`: how many further
edited words (from position `j`) match the original words following
position `endIdx`.  Each Python iteration increments both indices. -/
def runLen (edited orig : List String) (j endIdx : ℕ) : ℕ :=
  if h : j < edited.length ∧ endIdx + 1 < orig.length ∧
      pyLower (edited.getD j "") = pyLower (orig.getD (endIdx + 1) "") then
    runLen edited orig (j + 1) (endIdx + 1) + 1
  else 0
termination_by edited.length - j
decreasing_by
  obtain ⟨h1, -, -⟩ := h
  omega

/-- The outer while loop of `get_active_word_ranges` over the edited words,
starting at index `i`. -/
def gawrLoop (wts : List WordTiming) (orig edited : List String) (i : ℕ) :
    List (ℚ × ℚ) :=
  if hi : i < edited.length then
    match indexFrom orig (edited.getD i "")
        (if i < orig.length then i else 0) with
    | some startIdx =>
      let k := runLen edited orig (i + 1) startIdx
      let endIdx := startIdx + k
      (if startIdx < wts.length ∧ endIdx < wts.length then
        [((wts.getD startIdx dwt).start_time, (wts.getD endIdx dwt).end_time)]
      else []) ++ gawrLoop wts orig edited (i + 1 + k)
    | none => gawrLoop wts orig edited (i + 1)
  else []
termination_by edited.length - i
decreasing_by
  all_goals omega

/-- Embeds `TranscriptSegment.get_active_word_ranges`: time ranges of the words of
the segment that remain in the edited text. -/
def TranscriptSegment.get_active_word_ranges (seg : TranscriptSegment)
    (edited_text : String) : List (ℚ × ℚ) :=
  if seg.word_timings = [] then
    if pyIn (pyLower (pyStrip edited_text)) (pyLower seg.text) then
      [(seg.start_time, seg.end_time)]
    else []
  else
    gawrLoop seg.word_timings
      (seg.word_timings.map (fun wt => pyLower wt.word))
      (pySplitWs (pyLower edited_text)) 0

/-- The transcript container (`models.TranscriptData`). -/
structure TranscriptData where
  segments : List TranscriptSegment
  duration : ℚ
  file_path : String
deriving DecidableEq

/-- Embeds `TranscriptData.get_active_segments`: segments with `is_deleted` false. -/
def TranscriptData.get_active_segments (td : TranscriptData) :
    List TranscriptSegment :=
  td.segments.filter (fun s => !s.is_deleted)

/-! ### models.py — update_from_text -/

/-- Python's linear scan for the first segment whose `start_time` is within
`0.1` of `t`. -/
def findSegIdx (t : ℚ) : List TranscriptSegment → Option ℕ
  | [] => none
  | seg :: rest =>
    if |seg.start_time - t| < 1 / 10 then some 0
    else (findSegIdx t rest).map (fun i => i + 1)

/-- Replace the segment at position `idx` by `f` applied to it (models the
Python mutation of the aliased list element). -/
def modifySeg : List TranscriptSegment → ℕ →
    (TranscriptSegment → TranscriptSegment) → List TranscriptSegment
  | [], _, _ => []
  | s :: t, 0, f => f s :: t
  | s :: t, n + 1, f => s :: modifySeg t n f

/-- Marker test of `update_from_text`:
`line.startswith('[') and line.endswith(']') and 's -' in line`. -/
def isMarkerLine (line : String) : Bool :=
  List.isPrefixOf "[".data line.data && List.isSuffixOf "]".data line.data &&
    decide (pyIn "s -" line)

/-- Python slice `s[1:-1]`. -/
def pySlice1m1 (s : String) : String := ⟨(s.data.drop 1).dropLast⟩

/-- Start time parsed from a (marker-shaped) line:
`float(line[1:-1].split('s -')[0])`; `none` models `ValueError`. -/
def markerStartTime (parseFloat : String → Option ℚ) (line : String) :
    Option ℚ :=
  parseFloat ⟨takeBefore "s -".data (pySlice1m1 line).data⟩

/-- Loop state of `update_from_text`: the (mutated) segment list, the index
of `current_segment` (if any) and `segment_text_parts`. -/
structure UState where
  segs : List TranscriptSegment
  cur : Option ℕ
  parts : List String

/-- Flush of the pending segment in `update_from_text`
(`if current_segment and segment_text_parts: ...`): if the joined parts
strip to the empty string, mark the segment deleted, otherwise overwrite
its text. -/
def flushCur (st : UState) : List TranscriptSegment :=
  match st.cur with
  | none => st.segs
  | some idx =>
    if st.parts = [] then st.segs
    else
      let txt := pyStrip (pyJoinSpace st.parts)
      if txt = "" then modifySeg st.segs idx (fun s => { s with is_deleted := true })
      else modifySeg st.segs idx (fun s => { s with text := txt })

/-- One iteration of the line loop of `update_from_text`. -/
def updLine (parseFloat : String → Option ℚ) (st : UState) (line : String) :
    UState :=
  if isMarkerLine line then
    let segs1 := flushCur st
    match markerStartTime parseFloat line with
    | some t =>
      match findSegIdx t segs1 with
      | some idx => { segs := segs1, cur := some idx, parts := [] }
      | none => { segs := segs1, cur := none, parts := st.parts }
    | none => { segs := segs1, cur := none, parts := [] }
  else
    if st.cur.isSome then { st with parts := st.parts ++ [line] } else st

/-- The reset performed first by `update_from_text`:
`seg.is_deleted = False` for every segment. -/
def resetDel (s : TranscriptSegment) : TranscriptSegment :=
  { s with is_deleted := false }

/-- Embeds `TranscriptData.update_from_text`, parametrized by the float parser (a
Python builtin).  Resets `is_deleted` on every segment, then walks the
edited lines updating the segment matched by each timestamp marker. -/
def updateFromTextWith (parseFloat : String → Option ℚ) (td : TranscriptData)
    (edited_text : String) : TranscriptData :=
  let segs0 := td.segments.map resetDel
  let final := (pyLines edited_text).foldl (updLine parseFloat) ⟨segs0, none, []⟩
  { td with segments := flushCur final }

/-- Embeds `TranscriptData.update_from_text` with the concrete float parser. -/
def TranscriptData.update_from_text (td : TranscriptData)
    (edited_text : String) : TranscriptData :=
  updateFromTextWith pyFloat td edited_text

/-- Index of the segment a line selects as `current_segment` (computed over
the original segment list; the loop never changes any `start_time`). -/
def markerSegIdx (parseFloat : String → Option ℚ)
    (segs : List TranscriptSegment) (line : String) : Option ℕ :=
  if isMarkerLine line then
    match markerStartTime parseFloat line with
    | some t => findSegIdx t segs
    | none => none
  else none

/-- All segment indices matched by some timestamp marker of the edited
text (within the 0.1s tolerance). -/
def matchedIndices (parseFloat : String → Option ℚ) (td : TranscriptData)
    (edited_text : String) : List ℕ :=
  (pyLines edited_text).filterMap (markerSegIdx parseFloat td.segments)

/-! ### models.py — get_active_time_ranges -/

/-- Lexicographic comparison on pairs: Python's `list.sort()` on tuples. -/
def rangeLe (a b : ℚ × ℚ) : Bool :=
  decide (a.1 < b.1 ∨ (a.1 = b.1 ∧ a.2 ≤ b.2))

/-- The merge loop of `get_active_time_ranges`: `cur` is the last element
of `merged_ranges`, frozen and emitted once a range starts more than the
0.1s gap tolerance after its end. -/
def mergeLoop : ℚ × ℚ → List (ℚ × ℚ) → List (ℚ × ℚ)
  | cur, [] => [cur]
  | cur, (s, e) :: rest =>
    if s ≤ cur.2 + 1 / 10 then mergeLoop (cur.1, max cur.2 e) rest
    else cur :: mergeLoop (s, e) rest

/-- Embeds `TranscriptData.get_active_time_ranges`: collect the active ranges of
non-deleted segments (word-precise when word timings exist, the full span
otherwise), sort, and merge with the 0.1s gap tolerance. -/
def TranscriptData.get_active_time_ranges (td : TranscriptData) :
    List (ℚ × ℚ) :=
  let active_ranges := td.segments.flatMap (fun segment =>
    if !segment.is_deleted then
      if segment.word_timings ≠ [] then
        segment.get_active_word_ranges segment.text
      else [(segment.start_time, segment.end_time)]
    else [])
  match active_ranges.mergeSort rangeLe with
  | [] => []
  | first :: rest => mergeLoop first rest

/-! ### filler_detector.py -/

/-- Embeds `FillerWordDetector.min_segment_duration` (constructor default). -/
def min_segment_duration : ℚ := 3 / 10

/-- Embeds `FillerWordDetector._is_filler_segment`, parametrized by
`patternCheck`, the classification tail of the method (text normalization,
the regex pattern loop with context validators, and the
mostly-non-alphabetic test, lines 122-133 of `filler_detector.py`).  That
tail reads only `segment.text` and `segment.confidence`, which is exactly
the interface `patternCheck` receives; the unconditional early returns are
embedded concretely. -/
def isFillerSegmentWith (patternCheck : String → ℚ → Bool)
    (segment : TranscriptSegment) : Bool :=
  if pyStrip segment.text = "" ∨ segment.duration < min_segment_duration then
    true
  else if segment.confidence < 3 / 10 then true
  else patternCheck segment.text segment.confidence

/-- Embeds `FillerWordDetector.detect_filler_words` (with no custom filler words):
sets `is_filler := true` on every segment classified as filler; other
segments and all other fields are left alone. -/
def detectFillerWordsWith (patternCheck : String → ℚ → Bool)
    (td : TranscriptData) : TranscriptData :=
  { td with
    segments := td.segments.map (fun segment =>
      if isFillerSegmentWith patternCheck segment then
        { segment with is_filler := true }
      else segment) }

/-- Sort key of `detect_empty_spots`: `key=lambda s: s.start_time`. -/
def segLeByStart (a b : TranscriptSegment) : Bool :=
  decide (a.start_time ≤ b.start_time)

/-- Embeds `FillerWordDetector.detect_empty_spots`: gaps of at least
`silence_threshold` between consecutive segments after sorting by start
time. -/
def detectEmptySpots (td : TranscriptData) (silence_threshold : ℚ) :
    List (ℚ × ℚ) :=
  let sorted_segments := td.segments.mergeSort segLeByStart
  (sorted_segments.zip sorted_segments.tail).filterMap (fun p =>
    if silence_threshold ≤ p.2.start_time - p.1.end_time then
      some (p.1.end_time, p.2.start_time)
    else none)

/-- Numeric fields of the dictionary returned by
`FillerWordDetector.get_filler_statistics`.  The `filler_types` histogram
(first regex pattern matching each filler segment) depends on the regex
engine and is not modeled; no claim refers to it. -/
structure FillerStatistics where
  total_segments : ℕ
  filler_segments : ℕ
  filler_percentage : ℚ
  total_duration : ℚ
  filler_duration : ℚ
  filler_time_percentage : ℚ
  empty_spots : List (ℚ × ℚ)

/-- Embeds `FillerWordDetector.get_filler_statistics`. -/
def getFillerStatistics (td : TranscriptData) : FillerStatistics :=
  let total_segments := td.segments.length
  let filler_segments := (td.segments.filter (fun s => s.is_filler)).length
  let total_duration := td.duration
  let filler_duration :=
    ((td.segments.filter (fun s => s.is_filler)).map
      (fun s => s.duration)).sum
  { total_segments := total_segments
    filler_segments := filler_segments
    filler_percentage :=
      if 0 < total_segments then (filler_segments : ℚ) / total_segments * 100
      else 0
    total_duration := total_duration
    filler_duration := filler_duration
    filler_time_percentage :=
      if 0 < total_duration then filler_duration / total_duration * 100 else 0
    empty_spots := detectEmptySpots td (1 / 2) }

/-! ### progress_tracker.py -/

/-- Embeds `OperationStatus`. -/
inductive OperationStatus where
  | pending
  | running
  | completed
  | failed
  | cancelled
deriving DecidableEq

/-- Embeds `ProgressInfo`.  The untyped `result` payload is embedded as an
optional string. -/
structure ProgressInfo where
  operation_id : String
  status : OperationStatus
  progress_percent : ℚ := 0
  current_step : String := ""
  total_steps : ℤ := 0
  current_step_number : ℤ := 0
  start_time : ℚ := 0
  end_time : Option ℚ := none
  error_message : Option String := none
  result : Option String := none
deriving DecidableEq

/-- The mutable state of a `ProgressTracker`: the insertion-ordered
`_operations` dict and the `_cancelled_operations` set (kept as a
duplicate-free list). -/
structure TrackerState where
  operations : List (String × ProgressInfo)
  cancelled : List String
deriving DecidableEq

/-- Apply `f` to the value stored under `oid` (dict item mutation). -/
def updateOp (ops : List (String × ProgressInfo)) (oid : String)
    (f : ProgressInfo → ProgressInfo) : List (String × ProgressInfo) :=
  ops.map (fun p => if p.1 = oid then (p.1, f p.2) else p)

/-- Dict assignment `self._operations[operation_id] = info`. -/
def insertOp (ops : List (String × ProgressInfo)) (oid : String)
    (info : ProgressInfo) : List (String × ProgressInfo) :=
  if (List.lookup oid ops).isSome then updateOp ops oid (fun _ => info)
  else ops ++ [(oid, info)]

/-- Set insertion `self._cancelled_operations.add(operation_id)`. -/
def addCancelled (l : List String) (oid : String) : List String :=
  if oid ∈ l then l else l ++ [oid]

/-- Embeds `ProgressTracker.start_operation`. -/
def start_operation (st : TrackerState) (operation_id : String)
    (total_steps : ℤ) (description : String) (now : ℚ) :
    TrackerState × ProgressInfo :=
  let info : ProgressInfo :=
    { operation_id := operation_id
      status := .running
      current_step := description
      total_steps := total_steps
      start_time := now }
  ({ operations := insertOp st.operations operation_id info
     cancelled := st.cancelled.erase operation_id }, info)

/-- The field mutations performed by `ProgressTracker.update_progress` on
a non-cancelled operation: clamp an explicit percent, overwrite the step
description, and on a step number derive the percent from
`step_number / total_steps * 100` when `total_steps > 0` and no explicit
percent was supplied. -/
def applyUpdate (progress_percent : Option ℚ) (current_step : Option String)
    (current_step_number : Option ℤ) (info : ProgressInfo) : ProgressInfo :=
  let info1 :=
    match progress_percent with
    | some p => { info with progress_percent := max 0 (min 100 p) }
    | none => info
  let info2 :=
    match current_step with
    | some s => { info1 with current_step := s }
    | none => info1
  match current_step_number with
  | some n =>
    let info3 := { info2 with current_step_number := n }
    if 0 < info3.total_steps ∧ progress_percent = none then
      { info3 with
          progress_percent := (n : ℚ) / (info3.total_steps : ℚ) * 100 }
    else info3
  | none => info2

/-- Embeds `ProgressTracker.update_progress`. -/
def update_progress (st : TrackerState) (operation_id : String)
    (progress_percent : Option ℚ) (current_step : Option String)
    (current_step_number : Option ℤ) : TrackerState × Bool :=
  match List.lookup operation_id st.operations with
  | none => (st, false)
  | some _ =>
    if operation_id ∈ st.cancelled then
      ({ st with
          operations := updateOp st.operations operation_id
            (fun i => { i with status := .cancelled }) }, false)
    else
      ({ st with
          operations := updateOp st.operations operation_id
            (applyUpdate progress_percent current_step current_step_number) },
        true)

/-- Embeds `ProgressTracker.complete_operation`. -/
def complete_operation (st : TrackerState) (operation_id : String)
    (result : Option String) (now : ℚ) : TrackerState :=
  match List.lookup operation_id st.operations with
  | none => st
  | some _ =>
    { st with
        operations := updateOp st.operations operation_id (fun i =>
          { i with
              status := .completed
              progress_percent := 100
              end_time := some now
              result := result }) }

/-- Embeds `ProgressTracker.fail_operation`. -/
def fail_operation (st : TrackerState) (operation_id : String)
    (error_message : String) (now : ℚ) : TrackerState :=
  match List.lookup operation_id st.operations with
  | none => st
  | some _ =>
    { st with
        operations := updateOp st.operations operation_id (fun i =>
          { i with
              status := .failed
              end_time := some now
              error_message := some error_message }) }

/-- Embeds `ProgressTracker.cancel_operation`. -/
def cancel_operation (st : TrackerState) (operation_id : String) (now : ℚ) :
    TrackerState × Bool :=
  match List.lookup operation_id st.operations with
  | none => (st, false)
  | some info =>
    if info.status = .completed ∨ info.status = .failed then (st, false)
    else
      ({ operations := updateOp st.operations operation_id (fun i =>
            { i with status := .cancelled, end_time := some now })
         cancelled := addCancelled st.cancelled operation_id }, true)

/-! ### Shared helper lemmas -/

theorem getD_map_lt {α β : Type} (f : α → β) :
    ∀ (l : List α) (i : ℕ), i < l.length → ∀ (d : β) (d' : α),
      (l.map f).getD i d = f (l.getD i d')
  | [], i, hi, _, _ => absurd hi (by simp)
  | a :: l, 0, _, _, _ => rfl
  | a :: l, i + 1, hi, d, d' =>
    getD_map_lt f l i (by simpa using hi) d d'

/-! ### Claims about the filler detector -/

/-- C3: `detect_filler_words` marks a segment as filler whenever its text
is empty or whitespace-only, or its duration is below 0.3 seconds, or its
confidence is below 0.3, regardless of the text content or pattern
matching (quantified over every possible pattern-matching tail
`patternCheck`). -/
theorem c3_unconditional_filler (patternCheck : String → ℚ → Bool)
    (td : TranscriptData) (i : ℕ) (hi : i < td.segments.length)
    (hcond : pyStrip (td.segments.getD i dseg).text = "" ∨
      (td.segments.getD i dseg).duration < 3 / 10 ∨
      (td.segments.getD i dseg).confidence < 3 / 10) :
    ((detectFillerWordsWith patternCheck td).segments.getD i dseg).is_filler =
      true := by
  have hmap :
      (detectFillerWordsWith patternCheck td).segments.getD i dseg =
        (fun segment =>
          if isFillerSegmentWith patternCheck segment then
            { segment with is_filler := true }
          else segment) (td.segments.getD i dseg) :=
    getD_map_lt _ td.segments i hi dseg dseg
  rw [hmap]
  have hfil : isFillerSegmentWith patternCheck (td.segments.getD i dseg) =
      true := by
    unfold isFillerSegmentWith min_segment_duration
    rcases hcond with h | h | h
    · rw [if_pos (Or.inl h)]
    · rw [if_pos (Or.inr h)]
    · by_cases h2 : pyStrip (td.segments.getD i dseg).text = "" ∨
          (td.segments.getD i dseg).duration < 3 / 10
      · rw [if_pos h2]
      · rw [if_neg h2, if_pos h]
  show (if isFillerSegmentWith patternCheck (td.segments.getD i dseg) = true
      then { td.segments.getD i dseg with is_filler := true }
      else td.segments.getD i dseg).is_filler = true
  rw [if_pos hfil]

/-- Concrete instance for C3: an empty-text segment. -/
def c3_td : TranscriptData :=
  ⟨[{ id := 0, start_time := 0, end_time := 1, text := "", confidence := 1 }],
    1, "v.mp4"⟩

/-- Witness for C3 at a concrete segment with empty text, with a pattern
check that never fires. -/
theorem c3_witness :
    ((detectFillerWordsWith (fun _ _ => false) c3_td).segments.getD 0
      dseg).is_filler = true :=
  c3_unconditional_filler (fun _ _ => false) c3_td 0 (by decide) (Or.inl rfl)

/-- C7: `detect_filler_words` is idempotent — running it twice (with no
custom filler words) leaves the same `is_filler` assignment on every
segment as running it once, for every pattern-matching tail. -/
theorem c7_detect_idempotent (patternCheck : String → ℚ → Bool)
    (td : TranscriptData) :
    (detectFillerWordsWith patternCheck
      (detectFillerWordsWith patternCheck td)).segments.map
        (fun s => s.is_filler) =
    (detectFillerWordsWith patternCheck td).segments.map
      (fun s => s.is_filler) := by
  have hfix : detectFillerWordsWith patternCheck
      (detectFillerWordsWith patternCheck td) =
      detectFillerWordsWith patternCheck td := by
    simp only [detectFillerWordsWith, List.map_map]
    congr 1
    apply List.map_congr_left
    intro seg _
    by_cases h : isFillerSegmentWith patternCheck seg = true
    · have h2 : isFillerSegmentWith patternCheck
          { seg with is_filler := true } = true := h
      simp [Function.comp, h, h2]
    · have h' : isFillerSegmentWith patternCheck seg = false := by
        simpa using h
      simp [Function.comp, h']
  rw [hfix]

/-! ### Claims about the word-range reconciler fallback -/

/-- C8: for a segment without word timings, `get_active_word_ranges`
returns the full span exactly when the trimmed, lowercased edited text is
a substring of the lowercased original text, and the empty sequence
otherwise. -/
theorem c8_no_word_timings_fallback (seg : TranscriptSegment)
    (edited : String) (h : seg.word_timings = []) :
    ((pyLower (pyStrip edited)).data <:+: (pyLower seg.text).data →
      seg.get_active_word_ranges edited = [(seg.start_time, seg.end_time)]) ∧
    (¬ (pyLower (pyStrip edited)).data <:+: (pyLower seg.text).data →
      seg.get_active_word_ranges edited = []) := by
  constructor <;> intro hin <;>
    rw [TranscriptSegment.get_active_word_ranges, if_pos h]
  · rw [if_pos (show pyIn (pyLower (pyStrip edited)) (pyLower seg.text)
      from hin)]
  · rw [if_neg (show ¬ pyIn (pyLower (pyStrip edited)) (pyLower seg.text)
      from hin)]

/-- Witness for C8: an edited text that is a substring of the original
text after trimming and lowercasing keeps the full span. -/
theorem c8_witness :
    (⟨0, 0, 1, "Hello", false, false, 1, []⟩ :
      TranscriptSegment).get_active_word_ranges " HEL " = [(0, 1)] :=
  (c8_no_word_timings_fallback ⟨0, 0, 1, "Hello", false, false, 1, []⟩
    " HEL " rfl).1 (by decide)

/-- C10: for a segment without word timings, an empty or whitespace-only
edited text keeps the full segment span, because the empty string is a
substring of every original text. -/
theorem c10_blank_edit_keeps_span (seg : TranscriptSegment) (edited : String)
    (h1 : seg.word_timings = []) (h2 : pyStrip edited = "") :
    seg.get_active_word_ranges edited = [(seg.start_time, seg.end_time)] := by
  have hd : (pyLower "").data = [] := by decide
  have hin : pyIn (pyLower (pyStrip edited)) (pyLower seg.text) := by
    show (pyLower (pyStrip edited)).data <:+: (pyLower seg.text).data
    rw [h2, hd]
    exact ⟨[], (pyLower seg.text).data, by simp⟩
  rw [TranscriptSegment.get_active_word_ranges, if_pos h1, if_pos hin]

/-- Witness for C10: a whitespace-only edit at a concrete segment. -/
theorem c10_witness :
    (⟨0, 0, 1, "x", false, false, 1, []⟩ :
      TranscriptSegment).get_active_word_ranges "   " = [(0, 1)] :=
  c10_blank_edit_keeps_span ⟨0, 0, 1, "x", false, false, 1, []⟩ "   " rfl
    (by decide)

/-! ### Claim about filler statistics -/

/-- Transcript of C9: three segments with durations 1, 1, 2, total
duration 4, and only the middle segment marked filler. -/
def c9_td : TranscriptData :=
  ⟨[⟨0, 0, 1, "hello everyone", false, false, 1, []⟩,
    ⟨1, 1, 2, "um", true, false, 1, []⟩,
    ⟨2, 2, 4, "welcome", false, false, 1, []⟩], 4, "v.mp4"⟩

/-- C9: on the [1,1,2]-durations transcript with only the middle segment
filler and total duration 4, `get_filler_statistics` reports a filler
percentage within 0.1 of 33.33 and a filler time percentage within 0.1 of
25. -/
theorem c9_filler_statistics :
    |(getFillerStatistics c9_td).filler_percentage - 3333 / 100| < 1 / 10 ∧
    |(getFillerStatistics c9_td).filler_time_percentage - 25| < 1 / 10 := by
  have h1 : (getFillerStatistics c9_td).filler_percentage = (1 : ℚ) / 3 * 100 := by
    simp [getFillerStatistics, c9_td]
  have h2 : (getFillerStatistics c9_td).filler_time_percentage =
      (2 - 1 : ℚ) / 4 * 100 := by
    simp [getFillerStatistics, c9_td, TranscriptSegment.duration]
  constructor
  · rw [h1, abs_sub_lt_iff]
    constructor <;> norm_num
  · rw [h2, abs_sub_lt_iff]
    constructor <;> norm_num

/-! ### Claims about the progress tracker -/

/-- Lookup after a same-key dict update: the stored value is mapped. -/
theorem lookup_updateOp (ops : List (String × ProgressInfo)) (oid : String)
    (f : ProgressInfo → ProgressInfo) :
    List.lookup oid (updateOp ops oid f) = (List.lookup oid ops).map f := by
  induction ops with
  | nil => rfl
  | cons p t ih =>
    obtain ⟨k, v⟩ := p
    by_cases hk : k = oid
    · subst hk
      have h1 : updateOp ((k, v) :: t) k f = (k, f v) :: updateOp t k f := by
        simp [updateOp]
      have h2 : List.lookup k ((k, f v) :: updateOp t k f) = some (f v) := by
        simp [List.lookup]
      have h3 : List.lookup k ((k, v) :: t) = some v := by
        simp [List.lookup]
      rw [h1, h2, h3]
      rfl
    · have hbeq : (oid == k) = false := beq_eq_false_iff_ne.mpr (Ne.symm hk)
      have h1 : updateOp ((k, v) :: t) oid f = (k, v) :: updateOp t oid f := by
        simp [updateOp, hk]
      have h2 : List.lookup oid ((k, v) :: updateOp t oid f) =
          List.lookup oid (updateOp t oid f) := by
        simp [List.lookup, hbeq]
      have h3 : List.lookup oid ((k, v) :: t) = List.lookup oid t := by
        simp [List.lookup, hbeq]
      rw [h1, h2, h3, ih]

/-- Two same-key dict updates compose. -/
theorem updateOp_updateOp (ops : List (String × ProgressInfo)) (oid : String)
    (f g : ProgressInfo → ProgressInfo) :
    updateOp (updateOp ops oid f) oid g =
      updateOp ops oid (fun i => g (f i)) := by
  induction ops with
  | nil => rfl
  | cons p t ih =>
    obtain ⟨k, v⟩ := p
    by_cases hk : k = oid
    · subst hk
      have h1 : updateOp ((k, v) :: t) k f = (k, f v) :: updateOp t k f := by
        simp [updateOp]
      have h2 : updateOp ((k, f v) :: updateOp t k f) k g =
          (k, g (f v)) :: updateOp (updateOp t k f) k g := by
        simp [updateOp]
      have h3 : updateOp ((k, v) :: t) k (fun i => g (f i)) =
          (k, g (f v)) :: updateOp t k (fun i => g (f i)) := by
        simp [updateOp]
      rw [h1, h2, h3, ih]
    · have h1 : updateOp ((k, v) :: t) oid f = (k, v) :: updateOp t oid f := by
        simp [updateOp, hk]
      have h2 : updateOp ((k, v) :: updateOp t oid f) oid g =
          (k, v) :: updateOp (updateOp t oid f) oid g := by
        simp [updateOp, hk]
      have h3 : updateOp ((k, v) :: t) oid (fun i => g (f i)) =
          (k, v) :: updateOp t oid (fun i => g (f i)) := by
        simp [updateOp, hk]
      rw [h1, h2, h3, ih]

/-- A cancelled id is in the cancelled set. -/
theorem mem_addCancelled_self (l : List String) (oid : String) :
    oid ∈ addCancelled l oid := by
  unfold addCancelled
  by_cases h : oid ∈ l
  · rwa [if_pos h]
  · rw [if_neg h]
    simp

/-- Tracker state of the C5 counterexample: one running operation with 4
total steps. -/
def c5_state : TrackerState := (start_operation ⟨[], []⟩ "op" 4 "" 0).1

/-- C5 counterexample: updating with `step_number = 5` and no explicit
percent on an operation with `total_steps = 4` returns true and leaves
`progress_percent = 125`, outside [0,100] — the derived percent is not
clamped. -/
theorem c5_counterexample :
    (update_progress c5_state "op" none none (some 5)).2 = true ∧
    ∃ info,
      List.lookup "op"
          (update_progress c5_state "op" none none (some 5)).1.operations =
        some info ∧
      info.progress_percent = 125 ∧ 100 < info.progress_percent := by
  refine ⟨rfl, _, rfl, ?_, ?_⟩
  · show ((5 : ℤ) : ℚ) / ((4 : ℤ) : ℚ) * 100 = 125
    norm_num
  · show (100 : ℚ) < ((5 : ℤ) : ℚ) / ((4 : ℤ) : ℚ) * 100
    norm_num

/-- C5 (amended): every `update_progress` call that returns true and
supplies an explicit percent leaves the operation's `progress_percent` in
[0,100]. -/
theorem c5_explicit_percent_clamped (st : TrackerState) (oid : String)
    (p : ℚ) (cs : Option String) (csn : Option ℤ)
    (h : (update_progress st oid (some p) cs csn).2 = true) :
    ∃ info,
      List.lookup oid
          (update_progress st oid (some p) cs csn).1.operations = some info ∧
      0 ≤ info.progress_percent ∧ info.progress_percent ≤ 100 := by
  have hpc : ∀ info0 : ProgressInfo,
      (applyUpdate (some p) cs csn info0).progress_percent =
        max 0 (min 100 p) := by
    intro info0
    rcases cs with _ | s <;> rcases csn with _ | n <;>
      simp [applyUpdate]
  rcases hLc : List.lookup oid st.operations with _ | info0
  · exfalso
    unfold update_progress at h
    rw [hLc] at h
    simp at h
  · by_cases hc : oid ∈ st.cancelled
    · exfalso
      unfold update_progress at h
      rw [hLc, if_pos hc] at h
      simp at h
    · have hres : (update_progress st oid (some p) cs csn).1.operations =
          updateOp st.operations oid (applyUpdate (some p) cs csn) := by
        unfold update_progress
        rw [hLc, if_neg hc]
      refine ⟨applyUpdate (some p) cs csn info0, ?_, ?_, ?_⟩
      · rw [hres, lookup_updateOp, hLc]
        rfl
      · rw [hpc]
        exact le_max_left 0 _
      · rw [hpc]
        exact max_le (by norm_num) ((min_le_left 100 p).trans (by norm_num))

/-- Witness for the amended C5: an explicit (out-of-range) percent of 150
ends clamped into [0,100]. -/
theorem c5_witness :
    ∃ info,
      List.lookup "op"
          (update_progress c5_state "op" (some 150) none none).1.operations =
        some info ∧
      0 ≤ info.progress_percent ∧ info.progress_percent ≤ 100 :=
  c5_explicit_percent_clamped c5_state "op" 150 none none (by rfl)

/-- C4: `cancel_operation` on a running operation returns true, sets its
status to cancelled and stamps `end_time`; afterwards every
`update_progress` call for that id returns false and leaves the tracker
state — in particular all progress fields — completely unchanged.
`cancel_operation` on a completed (or failed) operation returns false and
changes nothing. -/
theorem c4_cancel_semantics (st : TrackerState) (oid : String) (now : ℚ)
    (info : ProgressInfo) (hl : List.lookup oid st.operations = some info) :
    (info.status = .running →
      (cancel_operation st oid now).2 = true ∧
      List.lookup oid (cancel_operation st oid now).1.operations =
        some { info with status := .cancelled, end_time := some now } ∧
      ∀ p cs csn,
        update_progress (cancel_operation st oid now).1 oid p cs csn =
          ((cancel_operation st oid now).1, false)) ∧
    ((info.status = .completed ∨ info.status = .failed) →
      cancel_operation st oid now = (st, false)) := by
  have hunfold : ¬(info.status = .completed ∨ info.status = .failed) →
      cancel_operation st oid now =
        (⟨updateOp st.operations oid
            (fun i => { i with status := .cancelled, end_time := some now }),
          addCancelled st.cancelled oid⟩, true) := by
    intro hne
    unfold cancel_operation
    rw [hl]
    exact if_neg hne
  constructor
  · intro hrun
    have hne : ¬(info.status = .completed ∨ info.status = .failed) := by
      rw [hrun]
      rintro (h | h) <;> simp at h
    rw [hunfold hne]
    refine ⟨rfl, ?_, ?_⟩
    · show List.lookup oid (updateOp st.operations oid
        (fun i => { i with status := .cancelled, end_time := some now })) =
        some { info with status := .cancelled, end_time := some now }
      rw [lookup_updateOp, hl]
      rfl
    · intro p cs csn
      have hmem : oid ∈ addCancelled st.cancelled oid :=
        mem_addCancelled_self _ _
      have hlk : List.lookup oid (updateOp st.operations oid
          (fun i => { i with status := .cancelled, end_time := some now })) =
          some { info with status := .cancelled, end_time := some now } := by
        rw [lookup_updateOp, hl]
        rfl
      unfold update_progress
      dsimp only
      rw [hlk]
      dsimp only
      rw [if_pos hmem]
      have hOO : updateOp (updateOp st.operations oid
          (fun i => { i with status := .cancelled, end_time := some now }))
          oid (fun i => { i with status := OperationStatus.cancelled }) =
          updateOp st.operations oid
            (fun i => { i with status := .cancelled, end_time := some now }) := by
        rw [updateOp_updateOp]
      rw [hOO]
  · intro hterm
    unfold cancel_operation
    rw [hl]
    exact if_pos hterm

/-- Tracker state of the C4 witness: operation "a" running, operation "b"
completed. -/
def c4_state : TrackerState :=
  complete_operation
    ((start_operation ((start_operation ⟨[], []⟩ "a" 0 "" 0).1) "b" 0 "" 0).1)
    "b" none 1

/-- Witness for C4: cancelling the running operation "a" succeeds and
cancelling the completed operation "b" fails, in the concrete two-operation
state. -/
theorem c4_witness :
    (cancel_operation c4_state "a" 2).2 = true ∧
    cancel_operation c4_state "b" 2 = (c4_state, false) :=
  ⟨((c4_cancel_semantics c4_state "a" 2
      { operation_id := "a", status := .running } (by rfl)).1 rfl).1,
    (c4_cancel_semantics c4_state "b" 2
      { operation_id := "b", status := .completed, progress_percent := 100,
        end_time := some 1 } (by rfl)).2 (Or.inl rfl)⟩

/-! ### Claim about get_active_time_ranges -/

/-- Every range produced by the merge loop starts no earlier than the
current range, provided the pending ranges do. -/
theorem mergeLoop_start_le :
    ∀ (rest : List (ℚ × ℚ)) (cur : ℚ × ℚ),
      (∀ r ∈ rest, cur.1 ≤ r.1) →
      List.Pairwise (fun a b : ℚ × ℚ => a.1 ≤ b.1) rest →
      ∀ r ∈ mergeLoop cur rest, cur.1 ≤ r.1 := by
  intro rest
  induction rest with
  | nil =>
    intro cur _ _ r hr
    simp only [mergeLoop, List.mem_singleton] at hr
    subst hr
    exact le_refl _
  | cons head t ih =>
    obtain ⟨s, e⟩ := head
    intro cur hall hpw r hr
    simp only [mergeLoop] at hr
    by_cases hse : s ≤ cur.2 + 1 / 10
    · rw [if_pos hse] at hr
      exact ih (cur.1, max cur.2 e)
        (fun r' hr' => hall r' (List.mem_cons_of_mem _ hr')) hpw.of_cons r hr
    · rw [if_neg hse] at hr
      rcases List.mem_cons.mp hr with h | h
      · subst h
        exact le_refl _
      · have hs : cur.1 ≤ s := hall (s, e) (List.mem_cons_self _ _)
        have hrec := ih (s, e)
          (fun r' hr' => (List.pairwise_cons.mp hpw).1 r' hr')
          hpw.of_cons r h
        exact hs.trans hrec

/-- The merge loop emits ranges that are sorted by start and separated by
more than the 0.1 gap tolerance, given start-sorted input. -/
theorem mergeLoop_pairwise :
    ∀ (rest : List (ℚ × ℚ)) (cur : ℚ × ℚ),
      (∀ r ∈ rest, cur.1 ≤ r.1) →
      List.Pairwise (fun a b : ℚ × ℚ => a.1 ≤ b.1) rest →
      List.Pairwise (fun r1 r2 : ℚ × ℚ => r1.1 ≤ r2.1 ∧ r1.2 + 1 / 10 < r2.1)
        (mergeLoop cur rest) := by
  intro rest
  induction rest with
  | nil =>
    intro cur _ _
    simp [mergeLoop]
  | cons head t ih =>
    obtain ⟨s, e⟩ := head
    intro cur hall hpw
    simp only [mergeLoop]
    by_cases hse : s ≤ cur.2 + 1 / 10
    · rw [if_pos hse]
      exact ih (cur.1, max cur.2 e)
        (fun r hr => hall r (List.mem_cons_of_mem _ hr)) hpw.of_cons
    · rw [if_neg hse]
      rw [List.pairwise_cons]
      constructor
      · intro r hr
        have hmem := mergeLoop_start_le t (s, e)
          (fun r' hr' => (List.pairwise_cons.mp hpw).1 r' hr')
          hpw.of_cons r hr
        exact ⟨(hall (s, e) (List.mem_cons_self _ _)).trans hmem,
          lt_of_lt_of_le (not_le.mp hse) hmem⟩
      · exact ih (s, e) (fun r hr => (List.pairwise_cons.mp hpw).1 r hr)
          hpw.of_cons

/-- Transitivity of the lexicographic order used for Python tuple sort. -/
theorem rangeLe_trans (a b c : ℚ × ℚ) (h1 : rangeLe a b = true)
    (h2 : rangeLe b c = true) : rangeLe a c = true := by
  simp only [rangeLe, decide_eq_true_eq] at h1 h2 ⊢
  rcases h1 with h | ⟨he, hp⟩ <;> rcases h2 with h' | ⟨he', hp'⟩
  · exact Or.inl (h.trans h')
  · exact Or.inl (by rw [← he']; exact h)
  · exact Or.inl (by rw [he]; exact h')
  · exact Or.inr ⟨he.trans he', hp.trans hp'⟩

/-- Totality of the lexicographic order used for Python tuple sort. -/
theorem rangeLe_total (a b : ℚ × ℚ) : (rangeLe a b || rangeLe b a) = true := by
  simp only [rangeLe, Bool.or_eq_true, decide_eq_true_eq]
  rcases lt_trichotomy a.1 b.1 with h | h | h
  · exact Or.inl (Or.inl h)
  · rcases le_total a.2 b.2 with h2 | h2
    · exact Or.inl (Or.inr ⟨h, h2⟩)
    · exact Or.inr (Or.inr ⟨h.symm, h2⟩)
  · exact Or.inr (Or.inl h)

/-- Sort-then-merge yields ranges sorted by start with consecutive (hence
all later) ranges starting strictly more than 0.1 after the previous end,
for any collected range list. -/
theorem sortMerge_pairwise (L : List (ℚ × ℚ)) :
    List.Pairwise (fun r1 r2 : ℚ × ℚ => r1.1 ≤ r2.1 ∧ r1.2 + 1 / 10 < r2.1)
      (match L.mergeSort rangeLe with
        | [] => []
        | first :: rest => mergeLoop first rest) := by
  have hsorted : List.Pairwise (fun a b => rangeLe a b = true)
      (L.mergeSort rangeLe) :=
    List.sorted_mergeSort rangeLe_trans rangeLe_total L
  have hle : ∀ a b : ℚ × ℚ, rangeLe a b = true → a.1 ≤ b.1 := by
    intro a b hab
    simp only [rangeLe, decide_eq_true_eq] at hab
    rcases hab with h | ⟨he, _⟩
    · exact le_of_lt h
    · exact le_of_eq he
  cases hM : L.mergeSort rangeLe with
  | nil =>
    exact List.Pairwise.nil
  | cons first rest =>
    rw [hM] at hsorted
    exact mergeLoop_pairwise rest first
      (fun r hr => hle _ _ ((List.pairwise_cons.mp hsorted).1 r hr))
      (((List.pairwise_cons.mp hsorted).2).imp (fun h => hle _ _ h))

/-- C2: `get_active_time_ranges` returns ranges sorted ascending by start
in which no two ranges overlap — every later range starts strictly more
than 0.1 after the previous range's end — and a timeline with no active
segment yields the empty sequence. -/
theorem c2_active_ranges_sorted_disjoint (td : TranscriptData)
    (hwt : ∀ seg ∈ td.segments, ∀ wt ∈ seg.word_timings,
      wt.start_time < wt.end_time) :
    List.Pairwise (fun r1 r2 : ℚ × ℚ => r1.1 ≤ r2.1 ∧ r1.2 + 1 / 10 < r2.1)
      td.get_active_time_ranges ∧
    (td.get_active_segments = [] → td.get_active_time_ranges = []) := by
  constructor
  · unfold TranscriptData.get_active_time_ranges
    exact sortMerge_pairwise _
  · intro hempty
    have hdel : ∀ s ∈ td.segments, s.is_deleted = true := by
      intro s hs
      unfold TranscriptData.get_active_segments at hempty
      have := List.filter_eq_nil_iff.mp hempty s hs
      simpa using this
    have hL : td.segments.flatMap (fun segment =>
        if !segment.is_deleted then
          if segment.word_timings ≠ [] then
            segment.get_active_word_ranges segment.text
          else [(segment.start_time, segment.end_time)]
        else []) = [] := by
      rw [List.flatMap_eq_nil_iff]
      intro s hs
      rw [hdel s hs]
      rfl
    unfold TranscriptData.get_active_time_ranges
    rw [hL]
    simp

/-- Concrete timeline for the C2 witness: two active segments without
word timings. -/
def c2_td : TranscriptData :=
  ⟨[⟨0, 0, 1, "a", false, false, 1, []⟩,
    ⟨1, 2, 3, "b", false, false, 1, []⟩], 3, "v.mp4"⟩

/-- Witness for C2 at a concrete two-segment timeline. -/
theorem c2_witness :
    List.Pairwise (fun r1 r2 : ℚ × ℚ => r1.1 ≤ r2.1 ∧ r1.2 + 1 / 10 < r2.1)
      c2_td.get_active_time_ranges ∧
    (c2_td.get_active_segments = [] → c2_td.get_active_time_ranges = []) :=
  c2_active_ranges_sorted_disjoint c2_td (by simp [c2_td])

/-! ### Claims about update_from_text -/

theorem modifySeg_length :
    ∀ (l : List TranscriptSegment) (k : ℕ)
      (f : TranscriptSegment → TranscriptSegment),
      (modifySeg l k f).length = l.length
  | [], _, _ => rfl
  | _ :: _, 0, _ => rfl
  | s :: t, k + 1, f => by
    simp only [modifySeg, List.length_cons, modifySeg_length t k f]

theorem modifySeg_getD_ne :
    ∀ (l : List TranscriptSegment) (k i : ℕ)
      (f : TranscriptSegment → TranscriptSegment) (d : TranscriptSegment),
      i ≠ k → (modifySeg l k f).getD i d = l.getD i d
  | [], _, _, _, _, _ => rfl
  | _ :: _, 0, 0, _, _, h => absurd rfl h
  | _ :: _, 0, _ + 1, _, _, _ => rfl
  | _ :: _, _ + 1, 0, _, _, _ => rfl
  | s :: t, k + 1, i + 1, f, d, h => by
    simp only [modifySeg, List.getD_cons_succ]
    exact modifySeg_getD_ne t k i f d (fun hh => h (by rw [hh]))

theorem modifySeg_getD_lt :
    ∀ (l : List TranscriptSegment) (k : ℕ)
      (f : TranscriptSegment → TranscriptSegment) (d : TranscriptSegment),
      k < l.length → (modifySeg l k f).getD k d = f (l.getD k d)
  | [], k, _, _, h => absurd h (by simp)
  | _ :: _, 0, _, _, _ => rfl
  | s :: t, k + 1, f, d, h => by
    simp only [modifySeg, List.getD_cons_succ]
    exact modifySeg_getD_lt t k f d (by simpa using h)

theorem modifySeg_ge :
    ∀ (l : List TranscriptSegment) (k : ℕ)
      (f : TranscriptSegment → TranscriptSegment),
      l.length ≤ k → modifySeg l k f = l
  | [], _, _, _ => rfl
  | s :: t, 0, f, h => absurd h (by simp)
  | s :: t, k + 1, f, h => by
    simp only [modifySeg, List.cons.injEq, true_and]
    exact modifySeg_ge t k f (by simpa using h)

/-- Equality of every segment field except `text` and `is_deleted` — the
only two fields `update_from_text` ever writes. -/
def skeletonEq (a b : TranscriptSegment) : Prop :=
  a.id = b.id ∧ a.start_time = b.start_time ∧ a.end_time = b.end_time ∧
  a.confidence = b.confidence ∧ a.word_timings = b.word_timings ∧
  a.is_filler = b.is_filler

theorem skeletonEq_refl (a : TranscriptSegment) : skeletonEq a a :=
  ⟨rfl, rfl, rfl, rfl, rfl, rfl⟩

theorem skeletonEq_trans {a b c : TranscriptSegment} (h1 : skeletonEq a b)
    (h2 : skeletonEq b c) : skeletonEq a c :=
  ⟨h1.1.trans h2.1, h1.2.1.trans h2.2.1, h1.2.2.1.trans h2.2.2.1,
    h1.2.2.2.1.trans h2.2.2.2.1, h1.2.2.2.2.1.trans h2.2.2.2.2.1,
    h1.2.2.2.2.2.trans h2.2.2.2.2.2⟩

theorem getD_map_reset :
    ∀ (l : List TranscriptSegment) (i : ℕ),
      (l.map resetDel).getD i dseg = resetDel (l.getD i dseg)
  | [], _ => rfl
  | a :: l, 0 => rfl
  | a :: l, i + 1 => by
    simp only [List.map_cons, List.getD_cons_succ]
    exact getD_map_reset l i

/-- Embeds `findSegIdx` only reads segment start times. -/
theorem findSegIdx_congr (t : ℚ) :
    ∀ (l1 l2 : List TranscriptSegment), l1.length = l2.length →
      (∀ i, (l1.getD i dseg).start_time = (l2.getD i dseg).start_time) →
      findSegIdx t l1 = findSegIdx t l2
  | [], [], _, _ => rfl
  | [], _ :: _, h, _ => absurd h (by simp)
  | _ :: _, [], h, _ => absurd h (by simp)
  | a :: l1, b :: l2, h, hpt => by
    have h0 : a.start_time = b.start_time := hpt 0
    have hrec : findSegIdx t l1 = findSegIdx t l2 :=
      findSegIdx_congr t l1 l2 (by simpa using h)
        (fun i => by simpa [List.getD_cons_succ] using hpt (i + 1))
    show (if |a.start_time - t| < 1 / 10 then some 0
        else (findSegIdx t l1).map (fun i => i + 1)) =
      (if |b.start_time - t| < 1 / 10 then some 0
        else (findSegIdx t l2).map (fun i => i + 1))
    rw [h0, hrec]

/-- Invariant maintained by the line loop of `update_from_text`: relative
to the reset segment list `orig`, the lengths agree, every segment keeps
every field but `text`/`is_deleted`, every segment whose index is outside
the matched set `M` also keeps its text and stays undeleted, and the
current segment (when present) is matched. -/
def UInv (orig : List TranscriptSegment) (M : List ℕ) (st : UState) : Prop :=
  st.segs.length = orig.length ∧
  (∀ i, skeletonEq (st.segs.getD i dseg) (orig.getD i dseg)) ∧
  (∀ i, i ∉ M → (st.segs.getD i dseg).text = (orig.getD i dseg).text ∧
    (st.segs.getD i dseg).is_deleted = false) ∧
  (∀ k, st.cur = some k → k ∈ M)

theorem flushCur_none (st : UState) (h : st.cur = none) :
    flushCur st = st.segs := by
  unfold flushCur
  rw [h]

theorem flushCur_some (st : UState) (k : ℕ) (h : st.cur = some k) :
    flushCur st = if st.parts = [] then st.segs
      else if pyStrip (pyJoinSpace st.parts) = "" then
        modifySeg st.segs k (fun s => { s with is_deleted := true })
      else modifySeg st.segs k
        (fun s => { s with text := pyStrip (pyJoinSpace st.parts) }) := by
  unfold flushCur
  rw [h]

/-- Flushing the pending segment preserves the loop invariant's list
clauses. -/
theorem flush_pres (orig : List TranscriptSegment) (M : List ℕ) (st : UState)
    (h : UInv orig M st) :
    (flushCur st).length = orig.length ∧
    (∀ i, skeletonEq ((flushCur st).getD i dseg) (orig.getD i dseg)) ∧
    (∀ i, i ∉ M → ((flushCur st).getD i dseg).text = (orig.getD i dseg).text ∧
      ((flushCur st).getD i dseg).is_deleted = false) := by
  obtain ⟨hlen, hskel, hun, hcur⟩ := h
  cases hc : st.cur with
  | none =>
    rw [flushCur_none st hc]
    exact ⟨hlen, hskel, hun⟩
  | some k =>
    have hkM : k ∈ M := hcur k hc
    rw [flushCur_some st k hc]
    by_cases hp : st.parts = []
    · rw [if_pos hp]
      exact ⟨hlen, hskel, hun⟩
    · rw [if_neg hp]
      have main : ∀ (f : TranscriptSegment → TranscriptSegment),
          (∀ s, skeletonEq (f s) s) →
          (modifySeg st.segs k f).length = orig.length ∧
          (∀ i, skeletonEq ((modifySeg st.segs k f).getD i dseg)
            (orig.getD i dseg)) ∧
          (∀ i, i ∉ M →
            ((modifySeg st.segs k f).getD i dseg).text =
              (orig.getD i dseg).text ∧
            ((modifySeg st.segs k f).getD i dseg).is_deleted = false) := by
        intro f hf
        refine ⟨?_, ?_, ?_⟩
        · rw [modifySeg_length]
          exact hlen
        · intro i
          by_cases hik : i = k
          · subst hik
            by_cases hlt : i < st.segs.length
            · rw [modifySeg_getD_lt _ _ _ _ hlt]
              exact skeletonEq_trans (hf _) (hskel i)
            · rw [modifySeg_ge _ _ _ (le_of_not_lt hlt)]
              exact hskel i
          · rw [modifySeg_getD_ne _ _ _ _ _ hik]
            exact hskel i
        · intro i hiM
          have hik : i ≠ k := fun hh => hiM (hh ▸ hkM)
          rw [modifySeg_getD_ne _ _ _ _ _ hik]
          exact hun i hiM
      by_cases ht : pyStrip (pyJoinSpace st.parts) = ""
      · rw [if_pos ht]
        exact main _ (fun s => ⟨rfl, rfl, rfl, rfl, rfl, rfl⟩)
      · rw [if_neg ht]
        exact main _ (fun s => ⟨rfl, rfl, rfl, rfl, rfl, rfl⟩)

/-- One line-loop iteration preserves the invariant, provided every index
the line can match is in `M`.  `base` is any list with the start times of
`orig` (in the code: the original segment list, whose start times the loop
never changes). -/
theorem updLine_inv (parseFloat : String → Option ℚ)
    (orig base : List TranscriptSegment) (M : List ℕ)
    (hblen : base.length = orig.length)
    (hbst : ∀ i, (base.getD i dseg).start_time =
      (orig.getD i dseg).start_time)
    (line : String) (st : UState) (h : UInv orig M st)
    (hline : ∀ idx, markerSegIdx parseFloat base line = some idx → idx ∈ M) :
    UInv orig M (updLine parseFloat st line) := by
  obtain ⟨hflen, hfskel, hfun⟩ := flush_pres orig M st h
  by_cases hm : isMarkerLine line = true
  · cases hmt : markerStartTime parseFloat line with
    | none =>
      have hstep : updLine parseFloat st line = ⟨flushCur st, none, []⟩ := by
        unfold updLine
        rw [if_pos hm, hmt]
      rw [hstep]
      exact ⟨hflen, hfskel, hfun, fun k hk => by simp at hk⟩
    | some t =>
      have hfind : findSegIdx t (flushCur st) = findSegIdx t base := by
        apply findSegIdx_congr
        · rw [hflen, hblen]
        · intro j
          rw [(hfskel j).2.1, hbst j]
      cases hfi : findSegIdx t (flushCur st) with
      | none =>
        have hstep : updLine parseFloat st line =
            ⟨flushCur st, none, st.parts⟩ := by
          unfold updLine
          rw [if_pos hm, hmt]
          simp only [hfi]
        rw [hstep]
        exact ⟨hflen, hfskel, hfun, fun k hk => by simp at hk⟩
      | some idx =>
        have hstep : updLine parseFloat st line =
            ⟨flushCur st, some idx, []⟩ := by
          unfold updLine
          rw [if_pos hm, hmt]
          simp only [hfi]
        rw [hstep]
        refine ⟨hflen, hfskel, hfun, fun k hk => ?_⟩
        have hk' : some idx = some k := hk
        have hkidx : idx = k := Option.some.inj hk'
        subst hkidx
        apply hline
        unfold markerSegIdx
        rw [if_pos hm, hmt]
        show findSegIdx t base = some idx
        rw [← hfind, hfi]
  · have hstep : updLine parseFloat st line =
        if st.cur.isSome then { st with parts := st.parts ++ [line] }
        else st := by
      unfold updLine
      exact if_neg hm
    rw [hstep]
    obtain ⟨hlen, hskel, hun, hcur⟩ := h
    by_cases hs : st.cur.isSome
    · rw [if_pos hs]
      exact ⟨hlen, hskel, hun, hcur⟩
    · rw [if_neg hs]
      exact ⟨hlen, hskel, hun, hcur⟩

/-- The whole line loop preserves the invariant. -/
theorem fold_inv (parseFloat : String → Option ℚ)
    (orig base : List TranscriptSegment) (M : List ℕ)
    (hblen : base.length = orig.length)
    (hbst : ∀ i, (base.getD i dseg).start_time =
      (orig.getD i dseg).start_time) :
    ∀ (ls : List String) (st : UState), UInv orig M st →
      (∀ line ∈ ls, ∀ idx,
        markerSegIdx parseFloat base line = some idx → idx ∈ M) →
      UInv orig M (ls.foldl (updLine parseFloat) st) := by
  intro ls
  induction ls with
  | nil =>
    intro st h _
    exact h
  | cons line rest ih =>
    intro st h hlines
    rw [List.foldl_cons]
    apply ih
    · exact updLine_inv parseFloat orig base M hblen hbst line st h
        (fun idx hidx => hlines line (List.mem_cons_self _ _) idx hidx)
    · intro l hl idx hidx
      exact hlines l (List.mem_cons_of_mem _ hl) idx hidx

/-- C6 (amended): `update_from_text` leaves the text — and every field
other than `is_deleted` — of any segment not matched by a timestamp
marker unchanged, and resets that segment's `is_deleted` to false (so a
previously deleted unmatched segment comes back active rather than
keeping its old flag).  Stated for every float parser. -/
theorem c6_unmatched_reset_only (parseFloat : String → Option ℚ)
    (td : TranscriptData) (edited : String) (i : ℕ)
    (hi : i < td.segments.length)
    (hm : i ∉ matchedIndices parseFloat td edited) :
    ((updateFromTextWith parseFloat td edited).segments.getD i dseg).text =
      (td.segments.getD i dseg).text ∧
    ((updateFromTextWith parseFloat td edited).segments.getD i
      dseg).is_deleted = false ∧
    skeletonEq ((updateFromTextWith parseFloat td edited).segments.getD i
      dseg) (td.segments.getD i dseg) := by
  have hinit : UInv (td.segments.map resetDel)
      (matchedIndices parseFloat td edited)
      ⟨td.segments.map resetDel, none, []⟩ :=
    ⟨rfl, fun j => skeletonEq_refl _, fun j _ => ⟨rfl, by
      rw [getD_map_reset]; rfl⟩, fun k hk => by simp at hk⟩
  have hfold := fold_inv parseFloat (td.segments.map resetDel) td.segments
    (matchedIndices parseFloat td edited) (by rw [List.length_map])
    (fun j => by rw [getD_map_reset]; rfl)
    (pyLines edited) ⟨td.segments.map resetDel, none, []⟩ hinit
    (fun line hl idx hx => List.mem_filterMap.mpr ⟨line, hl, hx⟩)
  obtain ⟨hlen, hskel, hun⟩ :=
    flush_pres (td.segments.map resetDel)
      (matchedIndices parseFloat td edited) _ hfold
  have hresult : (updateFromTextWith parseFloat td edited).segments =
      flushCur ((pyLines edited).foldl (updLine parseFloat)
        ⟨td.segments.map resetDel, none, []⟩) := rfl
  rw [hresult]
  refine ⟨?_, (hun i hm).2, ?_⟩
  · rw [(hun i hm).1, getD_map_reset]
    rfl
  · refine skeletonEq_trans (hskel i) ?_
    rw [getD_map_reset]
    exact ⟨rfl, rfl, rfl, rfl, rfl, rfl⟩

/-- Timeline for the C6 witness. -/
def c6w_td : TranscriptData :=
  ⟨[⟨0, 0, 1, "hello", false, false, 1, []⟩], 1, "v.mp4"⟩

/-- Witness for C6 at an edited text with no markers: the single segment
keeps its text, stays undeleted, and keeps every other field. -/
theorem c6_witness :
    ((updateFromTextWith pyFloat c6w_td "no markers").segments.getD 0
      dseg).text = (c6w_td.segments.getD 0 dseg).text ∧
    ((updateFromTextWith pyFloat c6w_td "no markers").segments.getD 0
      dseg).is_deleted = false ∧
    skeletonEq ((updateFromTextWith pyFloat c6w_td "no markers").segments.getD
      0 dseg) (c6w_td.segments.getD 0 dseg) :=
  c6_unmatched_reset_only pyFloat c6w_td "no markers" 0 (by decide)
    (by decide)

/-- Timeline for the C6 counterexample: the single segment starts
deleted. -/
def c6c_td : TranscriptData :=
  ⟨[⟨0, 0, 1, "hello", false, true, 1, []⟩], 1, "v.mp4"⟩

/-- C6 counterexample: on an edited text with no markers at all, the
unmatched, previously deleted segment does not keep its `is_deleted`
field — `update_from_text` resets it to false. -/
theorem c6_counterexample :
    matchedIndices pyFloat c6c_td "" = [] ∧
    (c6c_td.segments.getD 0 dseg).is_deleted = true ∧
    ((c6c_td.update_from_text "").segments.getD 0 dseg).is_deleted = false := by
  decide

/-- Timeline for C1: one segment starting at 0.0 with text "hello". -/
def c1_td : TranscriptData :=
  ⟨[⟨0, 0, 1, "hello", false, false, 1, []⟩], 1, "v.mp4"⟩

/-- C1: the segment is matched by the timestamp marker of the edited text
`"[0.00s - 1.00s]"` and its reconstructed text is empty (the marker is
followed by no line at all), yet after `update_from_text` it is not
deleted: the code collects only non-blank stripped lines, so
`segment_text_parts` stays empty and the `is_deleted = True` branch for an
empty reconstructed text is unreachable. -/
theorem c1_empty_reconstruction_not_deleted :
    matchedIndices pyFloat c1_td "[0.00s - 1.00s]" = [0] ∧
    (c1_td.update_from_text "[0.00s - 1.00s]").segments =
      [⟨0, 0, 1, "hello", false, false, 1, []⟩] := by
  have hline : pyLines "[0.00s - 1.00s]" = ["[0.00s - 1.00s]"] := by decide
  have hmk : isMarkerLine "[0.00s - 1.00s]" = true := by decide
  have harg : (⟨takeBefore "s -".data
      (pySlice1m1 "[0.00s - 1.00s]").data⟩ : String) = "0.00" := by decide
  have hparse : pyFloatParse (stripL "0.00".data) = some (false, 0, 0, 2) := by
    decide
  have hst0 : markerStartTime pyFloat "[0.00s - 1.00s]" = some 0 := by
    unfold markerStartTime
    rw [harg]
    unfold pyFloat
    rw [hparse]
    show some ((if false then -1 else 1) *
      (((0 : ℕ) : ℚ) + ((0 : ℕ) : ℚ) / (10 : ℚ) ^ (2 : ℕ))) = some 0
    norm_num
  have hfind : findSegIdx 0 (c1_td.segments.map resetDel) = some 0 := by
    show (if |(0 : ℚ) - 0| < 1 / 10 then some 0
      else (findSegIdx 0 []).map (fun i => i + 1)) = some 0
    rw [if_pos (by norm_num)]
  have hfind' : findSegIdx 0 c1_td.segments = some 0 := by
    show (if |(0 : ℚ) - 0| < 1 / 10 then some 0
      else (findSegIdx 0 []).map (fun i => i + 1)) = some 0
    rw [if_pos (by norm_num)]
  constructor
  · have hms : markerSegIdx pyFloat c1_td.segments "[0.00s - 1.00s]" =
        some 0 := by
      unfold markerSegIdx
      rw [if_pos hmk, hst0]
      show findSegIdx 0 c1_td.segments = some 0
      exact hfind'
    unfold matchedIndices
    rw [hline]
    simp [List.filterMap_cons, hms]
  · have hstep : updLine pyFloat ⟨c1_td.segments.map resetDel, none, []⟩
        "[0.00s - 1.00s]" = ⟨c1_td.segments.map resetDel, some 0, []⟩ := by
      unfold updLine
      rw [if_pos hmk, hst0]
      have hfl : flushCur ⟨c1_td.segments.map resetDel, none, []⟩ =
          c1_td.segments.map resetDel := rfl
      simp only [hfl, hfind]
    show flushCur ((pyLines "[0.00s - 1.00s]").foldl (updLine pyFloat)
        ⟨c1_td.segments.map resetDel, none, []⟩) =
      [⟨0, 0, 1, "hello", false, false, 1, []⟩]
    rw [hline, List.foldl_cons, List.foldl_nil, hstep]
    decide

end VideoTextCut
